import Mathlib

/-!
Verification of the task-tracker application (`src/app.ts`).

The file shallowly embeds the parts of the program the specification talks
about: the JavaScript primitive operations the code relies on (number to
string conversion, `String.prototype.trim`, unary `+` coercion), the
`validation` function, the observable `TaskState` store with its
`addTask` / `switchTaskStatus` / listener machinery, the status filter of the
list views, the drag-over acceptance test, and the form submit pipeline.

JavaScript objects are mutable and `tasks.slice()` makes a *shallow* copy, so
the store is modelled with an explicit heap: `Task` records live in a heap
(addresses are indices), the store's `tasks` array is a list of addresses, and
the snapshot handed to listeners is a copy of that address list.  Numbers are
modelled as integers-or-NaN (`JSNum`): the program only ever compares values
against integer bounds and converts them to decimal strings, and every claim
below is insensitive to non-integral doubles.  String length counts code
points; the strings in the claims are ASCII, where this agrees with
JavaScript's UTF-16 length.
-/

namespace App

/-- JavaScript numbers as used by the program: an integer or NaN. -/
inductive JSNum where
  | nan : JSNum
  | int : Int → JSNum
deriving DecidableEq, Repr

/-- The decimal digit character for `d < 10`. -/
def digitChar (d : Nat) : Char := Char.ofNat (48 + d)

/-- Little-endian decimal digit characters of `n`, with explicit fuel so that
the definition is structurally recursive (the fuel `n` itself always
suffices). -/
def natDigitsRevFuel : Nat → Nat → List Char
  | _, 0 => []
  | 0, _ + 1 => []
  | fuel + 1, n + 1 => digitChar ((n + 1) % 10) :: natDigitsRevFuel fuel ((n + 1) / 10)

/-- Model of JavaScript `Number.prototype.toString` on natural numbers:
the usual decimal representation. -/
def natToString (n : Nat) : String :=
  if n = 0 then "0" else ⟨(natDigitsRevFuel n n).reverse⟩

/-- Model of JavaScript `Number.prototype.toString` on integers. -/
def intToString (i : Int) : String :=
  if i < 0 then "-" ++ natToString i.natAbs else natToString i.natAbs

/-- `toString()` on a `JSNum` (`NaN` prints as `"NaN"`). -/
def JSNum.jsToString : JSNum → String
  | .nan => "NaN"
  | .int i => intToString i

/-- JavaScript `>=` against an integer bound; `NaN >= m` is `false`. -/
def JSNum.jsGe : JSNum → Int → Bool
  | .nan, _ => false
  | .int v, m => decide (m ≤ v)

/-- JavaScript `<=` against an integer bound; `NaN <= m` is `false`. -/
def JSNum.jsLe : JSNum → Int → Bool
  | .nan, _ => false
  | .int v, m => decide (v ≤ m)

/-- The `string | number` union type of the `Valid.value` field. -/
inductive JSVal where
  | str : String → JSVal
  | num : JSNum → JSVal
deriving DecidableEq, Repr

/-- `value.toString()`: the identity on strings. -/
def JSVal.jsToString : JSVal → String
  | .str s => s
  | .num n => n.jsToString

/-- The whitespace and line-terminator code points stripped by
`String.prototype.trim` (the exotic Unicode space separators are omitted;
no string the program produces contains them). -/
def isJsWhitespace (c : Char) : Bool :=
  c == ' ' || c == '\t' || c == '\n' || c == '\r' || c == '\x0b' || c == '\x0c' ||
    c == '\u00A0' || c == '\uFEFF' || c == '\u2028' || c == '\u2029'

/-- Model of `String.prototype.trim`. -/
def jsTrim (s : String) : String :=
  ⟨((s.data.dropWhile isJsWhitespace).reverse.dropWhile isJsWhitespace).reverse⟩

/-- The `Valid` interface: a value plus optional constraints (absent fields
are `undefined` in the source, hence `Option`). -/
structure Valid where
  value : JSVal
  required : Option Bool := none
  minLength : Option Int := none
  maxLength : Option Int := none
  min : Option Int := none
  max : Option Int := none
deriving DecidableEq, Repr

/-- The `validation` function, translated clause by clause from the source:
an accumulator starting at `true`, conjoined with each check whose guard
fires.  `if (validInput.required)` is JavaScript truthiness, so only
`required: true` enables the check; `minLength != null` together with
`typeof value === "string"` is the match on `some` and `.str`, and likewise
for the numeric bounds. -/
def validation (validInput : Valid) : Bool :=
  let isValid := true
  let isValid :=
    match validInput.required with
    | some true => isValid && ((jsTrim validInput.value.jsToString).length != 0)
    | _ => isValid
  let isValid :=
    match validInput.minLength, validInput.value with
    | some m, .str s => isValid && decide (m ≤ (s.length : Int))
    | _, _ => isValid
  let isValid :=
    match validInput.maxLength, validInput.value with
    | some m, .str s => isValid && decide ((s.length : Int) ≤ m)
    | _, _ => isValid
  let isValid :=
    match validInput.min, validInput.value with
    | some m, .num n => isValid && n.jsGe m
    | _, _ => isValid
  let isValid :=
    match validInput.max, validInput.value with
    | some m, .num n => isValid && n.jsLe m
    | _, _ => isValid
  isValid

/-- The specification's reading of the validator, for the refinement claim:
one boolean check per constraint, the conjunction of all of them; a
constraint that is absent, or that does not apply to the value's type,
contributes `true`. -/
def validationSpec (v : Valid) : Bool :=
  (match v.required with
   | some true => (jsTrim v.value.jsToString).length != 0
   | _ => true) &&
  (match v.minLength, v.value with
   | some m, .str s => decide (m ≤ (s.length : Int))
   | _, _ => true) &&
  (match v.maxLength, v.value with
   | some m, .str s => decide ((s.length : Int) ≤ m)
   | _, _ => true) &&
  (match v.min, v.value with
   | some m, .num n => n.jsGe m
   | _, _ => true) &&
  (match v.max, v.value with
   | some m, .num n => n.jsLe m
   | _, _ => true)

/-- The `TaskStatus` enum. -/
inductive TaskStatus where
  | Active : TaskStatus
  | Completed : TaskStatus
deriving DecidableEq, Repr

/-- The `Task` record. -/
structure Task where
  id : String
  title : String
  description : String
  days : JSNum
  status : TaskStatus
deriving DecidableEq, Repr

instance : Inhabited Task := ⟨⟨"", "", "", .int 0, .Active⟩⟩

/-- The observable store.  `heap` holds the mutable `Task` objects (an
address is an index into it), `taskRefs` is the store's `tasks` array — a
list of addresses — and `listeners` are opaque tokens for the registered
subscriber callbacks, in registration order. -/
structure TaskState where
  heap : List Task
  listeners : List Nat
  taskRefs : List Nat
deriving Repr

/-- Dereference a heap address. -/
def TaskState.heapGet (s : TaskState) (a : Nat) : Task := s.heap.getD a default

/-- The store's task sequence as the subscriber-visible list of records. -/
def TaskState.taskList (s : TaskState) : List Task := s.taskRefs.map s.heapGet

/-- `_updateListeners`: each listener, in registration order, is invoked with
`this.tasks.slice()` — a fresh array holding the same task addresses. -/
def TaskState.updateListeners (s : TaskState) : List (Nat × List Nat) :=
  s.listeners.map fun l => (l, s.taskRefs)

/-- `addListener`. -/
def TaskState.addListener (s : TaskState) (l : Nat) : TaskState :=
  { s with listeners := s.listeners ++ [l] }

/-- `addTask`: allocates a new `Task` with id `Date.now().toString()`
(`now` is the clock's reading at the call), status `Active`, pushes it onto
the store's array and notifies the listeners.  Returns the new state and the
dispatched notifications. -/
def TaskState.addTask (s : TaskState) (now : Nat) (title description : String)
    (numOfDays : JSNum) : TaskState × List (Nat × List Nat) :=
  let newTask : Task := ⟨natToString now, title, description, numOfDays, .Active⟩
  let s' : TaskState :=
    { s with heap := s.heap ++ [newTask], taskRefs := s.taskRefs ++ [s.heap.length] }
  (s', s'.updateListeners)

/-- `switchTaskStatus`: finds the first task whose id matches; if present and
its status differs from `newStatus`, mutates that task's status in place
(through its heap address) and notifies; otherwise does nothing. -/
def TaskState.switchTaskStatus (s : TaskState) (taskId : String)
    (newStatus : TaskStatus) : TaskState × List (Nat × List Nat) :=
  match s.taskRefs.find? (fun a => (s.heapGet a).id == taskId) with
  | some a =>
    if (s.heapGet a).status ≠ newStatus then
      let s' : TaskState :=
        { s with heap := s.heap.set a { s.heapGet a with status := newStatus } }
      (s', s'.updateListeners)
    else (s, [])
  | none => (s, [])

/-- The in-place field write `task.status = newStatus` that
`switchTaskStatus` performs on the task object at heap address `a`. -/
def TaskState.setStatusAt (s : TaskState) (a : Nat) (st : TaskStatus) : TaskState :=
  { s with heap := s.heap.set a { s.heapGet a with status := st } }

/-- The store operations a client can perform. -/
inductive StoreOp where
  | add (now : Nat) (title description : String) (days : JSNum) : StoreOp
  | transition (taskId : String) (newStatus : TaskStatus) : StoreOp
  | subscribe (l : Nat) : StoreOp

/-- Apply one operation, discarding the notifications. -/
def TaskState.applyOp (s : TaskState) : StoreOp → TaskState
  | .add now t d q => (s.addTask now t d q).1
  | .transition tid st => (s.switchTaskStatus tid st).1
  | .subscribe l => s.addListener l

/-- Run a sequence of operations. -/
def TaskState.runOps (s : TaskState) (ops : List StoreOp) : TaskState :=
  ops.foldl TaskState.applyOp s

/-- The store as `getInstance` first creates it: no tasks, no listeners. -/
def initialState : TaskState := ⟨[], [], []⟩

/-- Heap well-formedness: every address the store holds is allocated. -/
def TaskState.wf (s : TaskState) : Prop := ∀ a ∈ s.taskRefs, a < s.heap.length

/-- A store state is reachable when some operation sequence produces it from
the freshly-created store. -/
def TaskState.Reachable (s : TaskState) : Prop :=
  ∃ ops, TaskState.runOps initialState ops = s

/-- The timestamps of the `add` operations in a run, in order. -/
def addTimes : List StoreOp → List Nat
  | [] => []
  | .add now _ _ _ :: rest => now :: addTimes rest
  | _ :: rest => addTimes rest

/-- A subscriber executing `snapshot[i].title = newTitle`: the write goes
through the task address stored in the snapshot array, hence into the shared
heap.  Out-of-range indices dereference `undefined` and are modelled as a
no-op. -/
def mutateSnapshotTitle (s : TaskState) (snapshot : List Nat) (i : Nat)
    (newTitle : String) : TaskState :=
  match snapshot[i]? with
  | some a => { s with heap := s.heap.set a { s.heapGet a with title := newTitle } }
  | none => s

/-- Which status a list view is bound to (`"active" | "finished"`). -/
inductive ListKind where
  | active : ListKind
  | finished : ListKind
deriving DecidableEq, Repr

/-- The filter the list view's subscription callback applies to a snapshot. -/
def relevantTasks (type : ListKind) (tasks : List Task) : List Task :=
  tasks.filter fun t =>
    match type with
    | .active => t.status == .Active
    | .finished => t.status == .Completed

/-- The `dataTransfer` of a drag event: the declared media types and the
plain-text payload. -/
structure DataTransfer where
  types : List String
  plainData : String
deriving DecidableEq, Repr

/-- `dragOverHandler`: returns whether the handler calls `preventDefault` and
marks the zone droppable.  The source tests `e.dataTransfer &&
e.dataTransfer.types[0] === "text/plain"`; with no declared types,
`types[0]` is `undefined` and the comparison is false. -/
def dragOverAccepts (dataTransfer : Option DataTransfer) : Bool :=
  match dataTransfer with
  | some dt =>
    match dt.types with
    | t :: _ => t == "text/plain"
    | [] => false
  | none => false

/-- Model of JavaScript's unary `+` string-to-number coercion on the decimal
integer strings the quantity field can hold: empty or all-whitespace input
coerces to `0`, an optionally signed digit run to the integer it denotes,
anything else to `NaN`. -/
def decDigitsVal (l : List Char) : Int :=
  l.foldl (fun acc c => acc * 10 + ((c.toNat : Int) - 48)) 0

def jsToNumber (s : String) : JSNum :=
  match (jsTrim s).data with
  | [] => .int 0
  | '-' :: rest =>
    if !rest.isEmpty && rest.all Char.isDigit then .int (-(decDigitsVal rest)) else .nan
  | '+' :: rest =>
    if !rest.isEmpty && rest.all Char.isDigit then .int (decDigitsVal rest) else .nan
  | l => if l.all Char.isDigit then .int (decDigitsVal l) else .nan

/-- The raw values of the three form fields. -/
structure FormFields where
  title : String
  description : String
  days : String
deriving DecidableEq, Repr

/-- The constraint descriptor built for the title field. -/
def titleValid (f : FormFields) : Valid :=
  { value := .str f.title, required := some true }

/-- The constraint descriptor built for the description field. -/
def discriptionValid (f : FormFields) : Valid :=
  { value := .str f.description, required := some true,
    minLength := some 5, maxLength := some 500 }

/-- The constraint descriptor built for the quantity field (the raw string is
coerced with unary `+` first). -/
def taskValid (f : FormFields) : Valid :=
  { value := .num (jsToNumber f.days), required := some true,
    min := some 1, max := some 10 }

/-- `_getUserInput`: validates the three descriptors; on any failure alerts
and returns `undefined` (here `none`), otherwise the tuple of values with the
quantity coerced. -/
def getUserInput (f : FormFields) : Option (String × String × JSNum) :=
  if !validation (titleValid f) || !validation (discriptionValid f) ||
      !validation (taskValid f) then
    none
  else
    some (f.title, f.description, jsToNumber f.days)

/-- `_clearForm` sets the three fields to the empty string. -/
def clearForm : FormFields := ⟨"", "", ""⟩

/-- The outcome of one submit: the resulting store, the field values after
the handler, the notifications dispatched, and whether the blocking alert
fired. -/
structure SubmitResult where
  state : TaskState
  fields : FormFields
  notifications : List (Nat × List Nat)
  alerted : Bool
deriving Repr

/-- `_submitHandler`: runs `_getUserInput`; when it yields a tuple, calls
`addTask` with it and clears the form, otherwise (the alert already fired)
leaves everything alone. -/
def submitHandler (s : TaskState) (now : Nat) (f : FormFields) : SubmitResult :=
  match getUserInput f with
  | some (t, d, q) =>
    let r := s.addTask now t d q
    ⟨r.1, clearForm, r.2, false⟩
  | none => ⟨s, f, [], true⟩

/-! ## Helper lemmas about the JavaScript primitives -/

theorem dropWhile_eq_self_of_all {p : Char → Bool} {l : List Char}
    (h : ∀ c ∈ l, p c = false) : l.dropWhile p = l := by
  cases l with
  | nil => rfl
  | cons a t =>
    rw [List.dropWhile_cons_of_neg]
    simp [h a (List.mem_cons_self a t)]

theorem jsTrim_eq_self {s : String} (h : ∀ c ∈ s.data, isJsWhitespace c = false) :
    jsTrim s = s := by
  unfold jsTrim
  rw [dropWhile_eq_self_of_all h,
    dropWhile_eq_self_of_all (fun c hc => h c (List.mem_reverse.mp hc)),
    List.reverse_reverse]

theorem natDigitsRevFuel_eq : ∀ (n : Nat), ∀ fuel, n ≤ fuel →
    natDigitsRevFuel fuel n = (Nat.digits 10 n).map digitChar := by
  intro n
  induction n using Nat.strong_induction_on with
  | _ n ih =>
    intro fuel hf
    match n, fuel with
    | 0, fuel => cases fuel <;> simp [natDigitsRevFuel]
    | n + 1, 0 => omega
    | n + 1, fuel + 1 =>
      have hd : (n + 1) / 10 < n + 1 := Nat.div_lt_self (Nat.succ_pos n) (by norm_num)
      rw [show natDigitsRevFuel (fuel + 1) (n + 1) =
          digitChar ((n + 1) % 10) :: natDigitsRevFuel fuel ((n + 1) / 10) from rfl,
        Nat.digits_def' (b := 10) (by norm_num) (Nat.succ_pos n), List.map_cons]
      exact congrArg _ (ih _ hd _ (by omega))

theorem digitChar_not_ws : ∀ d < 10, isJsWhitespace (digitChar d) = false := by decide

theorem digitChar_inj_lt : ∀ d < 10, ∀ e < 10, digitChar d = digitChar e → d = e := by
  decide

theorem natToString_data {n : Nat} (h : n ≠ 0) :
    (natToString n).data = ((Nat.digits 10 n).map digitChar).reverse := by
  unfold natToString
  rw [if_neg h, natDigitsRevFuel_eq n n le_rfl]

theorem natToString_data_ne_nil (n : Nat) : (natToString n).data ≠ [] := by
  by_cases h : n = 0
  · subst h; decide
  · rw [natToString_data h]
    simp [Nat.digits_ne_nil_iff_ne_zero.mpr h]

theorem natToString_not_ws (n : Nat) :
    ∀ c ∈ (natToString n).data, isJsWhitespace c = false := by
  by_cases h : n = 0
  · subst h; decide
  · rw [natToString_data h]
    intro c hc
    rw [List.mem_reverse] at hc
    obtain ⟨d, hd, rfl⟩ := List.mem_map.mp hc
    exact digitChar_not_ws d (Nat.digits_lt_base (by norm_num) hd)

theorem jsNumToString_data_ne_nil (v : JSNum) : (v.jsToString).data ≠ [] := by
  cases v with
  | nan => decide
  | int i =>
    show (intToString i).data ≠ []
    unfold intToString
    by_cases h : i < 0
    · rw [if_pos h]; simp
    · rw [if_neg h]; exact natToString_data_ne_nil _

theorem jsNumToString_not_ws (v : JSNum) :
    ∀ c ∈ (v.jsToString).data, isJsWhitespace c = false := by
  cases v with
  | nan => decide
  | int i =>
    show ∀ c ∈ (intToString i).data, _
    unfold intToString
    by_cases h : i < 0
    · rw [if_pos h]
      intro c hc
      rw [show ("-" ++ natToString i.natAbs : String).data
          = '-' :: (natToString i.natAbs).data from rfl] at hc
      rcases List.mem_cons.mp hc with hc | hc
      · subst hc; decide
      · exact natToString_not_ws _ c hc
    · rw [if_neg h]; exact natToString_not_ws _

theorem jsNum_required_check (v : JSNum) :
    ((jsTrim v.jsToString).length != 0) = true := by
  rw [jsTrim_eq_self (jsNumToString_not_ws v)]
  have hne := jsNumToString_data_ne_nil v
  simp only [bne_iff_ne, ne_eq, String.length]
  intro hlen
  exact hne (List.length_eq_zero.mp hlen)

theorem map_digitChar_inj : ∀ (l₁ l₂ : List Nat), (∀ d ∈ l₁, d < 10) →
    (∀ d ∈ l₂, d < 10) → l₁.map digitChar = l₂.map digitChar → l₁ = l₂ := by
  intro l₁
  induction l₁ with
  | nil =>
    intro l₂ _ _ h
    cases l₂ with
    | nil => rfl
    | cons b t => simp at h
  | cons a t ih =>
    intro l₂ h₁ h₂ h
    cases l₂ with
    | nil => simp at h
    | cons b t₂ =>
      simp only [List.map_cons, List.cons.injEq] at h
      have hab : a = b :=
        digitChar_inj_lt a (h₁ a (List.mem_cons_self a t)) b
          (h₂ b (List.mem_cons_self b t₂)) h.1
      have ht : t = t₂ :=
        ih t₂ (fun d hd => h₁ d (List.mem_cons_of_mem a hd))
          (fun d hd => h₂ d (List.mem_cons_of_mem b hd)) h.2
      rw [hab, ht]

theorem natToString_pos_ne_zeroStr {b : Nat} (hb : b ≠ 0) :
    natToString b ≠ natToString 0 := by
  intro h
  have hdata : (natToString b).data = ['0'] := by
    rw [h]
    rfl
  rw [natToString_data hb] at hdata
  have hlen : (Nat.digits 10 b).length = 1 := by
    have := congrArg List.length hdata
    simpa using this
  obtain ⟨d, hd⟩ := List.length_eq_one.mp hlen
  rw [hd] at hdata
  have hchar : digitChar d = '0' := by simpa using hdata
  have hdlt : d < 10 := Nat.digits_lt_base (by norm_num) (hd ▸ List.mem_singleton_self d)
  have hd0 : d = 0 := digitChar_inj_lt d hdlt 0 (by norm_num) hchar
  have hbd : d = b := by
    have h0 := Nat.ofDigits_digits 10 b
    rw [hd] at h0
    simpa [Nat.ofDigits_cons, Nat.ofDigits_nil] using h0
  exact hb (by rw [← hbd, hd0])

theorem natToString_injective : Function.Injective natToString := by
  intro a b hab
  by_cases ha : a = 0 <;> by_cases hb : b = 0
  · rw [ha, hb]
  · exact absurd (ha ▸ hab).symm (natToString_pos_ne_zeroStr hb)
  · exact absurd (hb ▸ hab) (natToString_pos_ne_zeroStr ha)
  · have hdata : (natToString a).data = (natToString b).data := by rw [hab]
    rw [natToString_data ha, natToString_data hb] at hdata
    have hmap : (Nat.digits 10 a).map digitChar = (Nat.digits 10 b).map digitChar :=
      List.reverse_injective hdata
    have hdig : Nat.digits 10 a = Nat.digits 10 b :=
      map_digitChar_inj _ _ (fun d hd => Nat.digits_lt_base (by norm_num) hd)
        (fun d hd => Nat.digits_lt_base (by norm_num) hd) hmap
    exact Nat.digits.injective 10 hdig

/-! ## Claim theorems: validator and views -/

/-- C7: `validation` always returns a boolean equal to the conjunction of
the applicable constraint checks — `minLength`/`maxLength` only for string
values, `min`/`max` only for numeric values, absent constraints vacuously
satisfied — and in particular it returns `false` on an empty required string,
`true` on `"hello"` with `required`/`minLength 5`/`maxLength 500`, `false` on
`0` with `required`/`min 1`/`max 10`, `false` on `11` with `min 1`/`max 10`,
and `true` on `5` with `min 1`/`max 10`. -/
theorem validation_eq_spec_and_examples :
    (∀ v : Valid, validation v = validationSpec v)
    ∧ validation { value := .str "", required := some true } = false
    ∧ validation { value := .str "hello", required := some true, minLength := some 5, maxLength := some 500 } = true
    ∧ validation { value := .num (.int 0), required := some true, min := some 1, max := some 10 } = false
    ∧ validation { value := .num (.int 11), min := some 1, max := some 10 } = false
    ∧ validation { value := .num (.int 5), min := some 1, max := some 10 } = true := by
  refine ⟨?_, by decide, by decide, by decide, by decide, by decide⟩
  intro v
  obtain ⟨val, req, minL, maxL, mn, mx⟩ := v
  cases req with
  | none =>
    cases val <;> cases minL <;> cases maxL <;> cases mn <;> cases mx <;>
      simp [validation, validationSpec, Bool.and_assoc]
  | some b =>
    cases b <;> cases val <;> cases minL <;> cases maxL <;> cases mn <;> cases mx <;>
      simp [validation, validationSpec, Bool.and_assoc]

/-- C10: the `required` check alone accepts every numeric value, `0` and
`NaN` included, because a number's decimal string form is never empty or
whitespace-only; hence with the quantity field's constraints the verdict is
decided by the `min`/`max` bounds alone. -/
theorem validation_required_numeric :
    (∀ n : JSNum, validation { value := .num n, required := some true } = true)
    ∧ ∀ n : JSNum, validation { value := .num n, required := some true, min := some 1, max := some 10 } = (n.jsGe 1 && n.jsLe 10) := by
  constructor
  · intro n
    simp [validation, JSVal.jsToString, jsNum_required_check n]
  · intro n
    simp [validation, JSVal.jsToString, jsNum_required_check n, Bool.and_assoc]

/-- C6: the list views' status filter is a stable partition — the actives in
order followed by the completed in order is a permutation of the original
sequence (no duplicate, no omission), and each filtered sublist preserves the
original insertion order. -/
theorem relevantTasks_stable_partition (l : List Task) :
    (relevantTasks .active l ++ relevantTasks .finished l).Perm l
    ∧ (relevantTasks .active l).Sublist l
    ∧ (relevantTasks .finished l).Sublist l := by
  refine ⟨?_, List.filter_sublist l, List.filter_sublist l⟩
  have hfin : relevantTasks .finished l = l.filter fun t => !(t.status == .Active) := by
    apply List.filter_congr
    intro t _
    cases h : t.status <;> rfl
  rw [show relevantTasks .active l = l.filter (fun t => t.status == .Active) from rfl, hfin]
  exact List.filter_append_perm _ l

/-- C9 (counterexample): a drag payload that declares `"text/plain"` among
its types, but not first, is not accepted by `dragOverHandler`, refuting the
claim that every payload whose declared types include `"text/plain"` enables
the drop. -/
theorem dragOver_includes_plain_not_accepted :
    "text/plain" ∈ (DataTransfer.mk ["text/html", "text/plain"] "id").types
    ∧ dragOverAccepts (some (DataTransfer.mk ["text/html", "text/plain"] "id"))
        = false := by
  constructor
  · decide
  · decide

/-- C9 (amended): `dragOverHandler` prevents the browser default (marking the
zone droppable) exactly when a `dataTransfer` is present and the *first*
declared media type is `"text/plain"`; any other payload is ignored. -/
theorem dragOver_accepts_iff_first_type_plain (dataTransfer : Option DataTransfer) :
    dragOverAccepts dataTransfer = true ↔
      ∃ dt, dataTransfer = some dt ∧ dt.types.head? = some "text/plain" := by
  cases dataTransfer with
  | none => simp [dragOverAccepts]
  | some dt =>
    cases h : dt.types with
    | nil => simp [dragOverAccepts, h]
    | cons t rest => simp [dragOverAccepts, h]

/-! ## Helper lemmas about the store -/

theorem heapGet_push (s : TaskState) (t : Task) {a : Nat} (ha : a < s.heap.length) :
    TaskState.heapGet { s with heap := s.heap ++ [t] } a = s.heapGet a := by
  unfold TaskState.heapGet
  rw [List.getD_eq_getElem?_getD, List.getD_eq_getElem?_getD,
    List.getElem?_append_left ha]

theorem heapGet_set (s : TaskState) (a : Nat) (t : Task) (ha : a < s.heap.length)
    (b : Nat) :
    TaskState.heapGet { s with heap := s.heap.set a t } b
      = if b = a then t else s.heapGet b := by
  unfold TaskState.heapGet
  by_cases hb : b = a
  · subst hb
    rw [if_pos rfl, List.getD_eq_getElem?_getD]
    simp [List.getElem?_set_self ha]
  · rw [if_neg hb, List.getD_eq_getElem?_getD, List.getD_eq_getElem?_getD,
      List.getElem?_set_ne (fun h => hb h.symm)]

theorem addTask_state (s : TaskState) (now : Nat) (t d : String) (q : JSNum) :
    (s.addTask now t d q).1
      = { s with heap := s.heap ++ [⟨natToString now, t, d, q, .Active⟩], taskRefs := s.taskRefs ++ [s.heap.length] } := rfl

theorem push_taskList (s : TaskState) (hwf : s.wf) (nt : Task) :
    TaskState.taskList { s with heap := s.heap ++ [nt], taskRefs := s.taskRefs ++ [s.heap.length] }
      = s.taskList ++ [nt] := by
  unfold TaskState.taskList
  show (s.taskRefs ++ [s.heap.length]).map _ = _
  rw [List.map_append]
  congr 1
  · refine List.map_congr_left fun a ha => ?_
    have hsame : TaskState.heapGet { s with heap := s.heap ++ [nt], taskRefs := s.taskRefs ++ [s.heap.length] } a
        = TaskState.heapGet { s with heap := s.heap ++ [nt] } a := rfl
    rw [hsame, heapGet_push s nt (hwf a ha)]
  · have hlast : TaskState.heapGet { s with heap := s.heap ++ [nt], taskRefs := s.taskRefs ++ [s.heap.length] } s.heap.length = nt := by
      unfold TaskState.heapGet
      show ((s.heap ++ [nt]).getD s.heap.length default) = nt
      rw [List.getD_eq_getElem?_getD, List.getElem?_concat_length]
      rfl
    rw [List.map_cons, List.map_nil, hlast]

theorem addTask_taskList (s : TaskState) (hwf : s.wf) (now : Nat)
    (t d : String) (q : JSNum) :
    (s.addTask now t d q).1.taskList
      = s.taskList ++ [⟨natToString now, t, d, q, .Active⟩] := by
  rw [addTask_state]
  exact push_taskList s hwf _

theorem switch_find_none (s : TaskState) (tid : String) (st : TaskStatus)
    (h : s.taskRefs.find? (fun a => (s.heapGet a).id == tid) = none) :
    s.switchTaskStatus tid st = (s, []) := by
  unfold TaskState.switchTaskStatus
  split
  · rename_i a heq
    rw [h] at heq
    cases heq
  · rfl

theorem switch_find_some_eq (s : TaskState) (tid : String) (st : TaskStatus)
    {a : Nat} (h : s.taskRefs.find? (fun b => (s.heapGet b).id == tid) = some a)
    (hst : (s.heapGet a).status = st) :
    s.switchTaskStatus tid st = (s, []) := by
  unfold TaskState.switchTaskStatus
  split
  · rename_i b heq
    rw [h] at heq
    injection heq with heq
    subst heq
    rw [if_neg (not_not_intro hst)]
  · rfl

theorem switch_find_some_ne (s : TaskState) (tid : String) (st : TaskStatus)
    {a : Nat} (h : s.taskRefs.find? (fun b => (s.heapGet b).id == tid) = some a)
    (hst : (s.heapGet a).status ≠ st) :
    s.switchTaskStatus tid st
      = (s.setStatusAt a st, s.listeners.map fun l => (l, s.taskRefs)) := by
  unfold TaskState.switchTaskStatus
  split
  · rename_i b heq
    rw [h] at heq
    injection heq with heq
    subst heq
    rw [if_pos hst]
    rfl
  · rename_i heq
    rw [h] at heq
    cases heq

theorem find?_taskList (s : TaskState) (tid : String) :
    s.taskList.find? (fun u => u.id == tid)
      = (s.taskRefs.find? (fun a => (s.heapGet a).id == tid)).map s.heapGet := by
  unfold TaskState.taskList
  rw [List.find?_map]
  rfl

theorem wf_addTask (s : TaskState) (hwf : s.wf) (now : Nat) (t d : String)
    (q : JSNum) : (s.addTask now t d q).1.wf := by
  rw [addTask_state]
  intro a ha
  show a < (s.heap ++ _).length
  rw [List.length_append]
  rcases List.mem_append.mp ha with ha | ha
  · have := hwf a ha
    omega
  · have : a = s.heap.length := by simpa using ha
    simp [this]

theorem wf_switch (s : TaskState) (hwf : s.wf) (tid : String) (st : TaskStatus) :
    (s.switchTaskStatus tid st).1.wf := by
  cases h : s.taskRefs.find? (fun b => (s.heapGet b).id == tid) with
  | none =>
    rw [switch_find_none s tid st h]
    exact hwf
  | some a =>
    by_cases hst : (s.heapGet a).status ≠ st
    · rw [switch_find_some_ne s tid st h hst]
      intro b hb
      show b < (s.heap.set _ _).length
      rw [List.length_set]
      exact hwf b hb
    · rw [switch_find_some_eq s tid st h (not_not.mp hst)]
      exact hwf

theorem nodup_addTask (s : TaskState) (hwf : s.wf) (hnd : s.taskRefs.Nodup)
    (now : Nat) (t d : String) (q : JSNum) :
    (s.addTask now t d q).1.taskRefs.Nodup := by
  rw [addTask_state]
  show (s.taskRefs ++ [s.heap.length]).Nodup
  rw [List.nodup_append]
  refine ⟨hnd, List.nodup_singleton _, ?_⟩
  intro a ha hb
  have h1 := hwf a ha
  have h2 : a = s.heap.length := by simpa using hb
  omega

theorem switch_taskRefs (s : TaskState) (tid : String) (st : TaskStatus) :
    (s.switchTaskStatus tid st).1.taskRefs = s.taskRefs := by
  cases h : s.taskRefs.find? (fun b => (s.heapGet b).id == tid) with
  | none => rw [switch_find_none s tid st h]
  | some a =>
    by_cases hst : (s.heapGet a).status ≠ st
    · rw [switch_find_some_ne s tid st h hst]
      rfl
    · rw [switch_find_some_eq s tid st h (not_not.mp hst)]

/-- The two store invariants every reachable state enjoys: all task addresses
are allocated, and the `tasks` array holds no aliased (duplicate) address. -/
def TaskState.Inv (s : TaskState) : Prop := s.wf ∧ s.taskRefs.Nodup

theorem inv_applyOp (s : TaskState) (h : s.Inv) (op : StoreOp) :
    (s.applyOp op).Inv := by
  obtain ⟨hwf, hnd⟩ := h
  cases op with
  | add now t d q => exact ⟨wf_addTask s hwf now t d q, nodup_addTask s hwf hnd now t d q⟩
  | transition tid st =>
    refine ⟨wf_switch s hwf tid st, ?_⟩
    show (s.switchTaskStatus tid st).1.taskRefs.Nodup
    rw [switch_taskRefs]
    exact hnd
  | subscribe l => exact ⟨hwf, hnd⟩

theorem inv_runOps (s : TaskState) (h : s.Inv) (ops : List StoreOp) :
    (TaskState.runOps s ops).Inv := by
  induction ops generalizing s with
  | nil => exact h
  | cons op rest ih =>
    show (TaskState.runOps (s.applyOp op) rest).Inv
    exact ih _ (inv_applyOp s h op)

theorem reachable_inv (s : TaskState) (hr : s.Reachable) : s.Inv := by
  obtain ⟨ops, rfl⟩ := hr
  exact inv_runOps initialState ⟨by intro a ha; simp [initialState] at ha, by
    simp [initialState]⟩ ops

theorem wf_applyOp (s : TaskState) (hwf : s.wf) (op : StoreOp) : (s.applyOp op).wf := by
  cases op with
  | add now t d q => exact wf_addTask s hwf now t d q
  | transition tid st => exact wf_switch s hwf tid st
  | subscribe l => exact hwf

theorem heapGet_setStatusAt (s : TaskState) (a : Nat) (st : TaskStatus)
    (ha : a < s.heap.length) (b : Nat) :
    (s.setStatusAt a st).heapGet b
      = if b = a then { s.heapGet a with status := st } else s.heapGet b :=
  heapGet_set s a _ ha b

/-- After `switchTaskStatus` mutates the task at address `a`, a search for the
same id still finds the task at address `a` first: the ids are untouched, so
the prefix that did not match before still does not match. -/
theorem find_after_set (s : TaskState) (hwf : s.wf) (tid : String) (t' : Task)
    {a : Nat} (h : s.taskRefs.find? (fun b => (s.heapGet b).id == tid) = some a)
    (hid : t'.id = (s.heapGet a).id) :
    s.taskRefs.find? (fun b =>
        (TaskState.heapGet { s with heap := s.heap.set a t' } b).id == tid) = some a := by
  obtain ⟨hqa, as, bs, hsplit, hprev⟩ := List.find?_eq_some.mp h
  have halen : a < s.heap.length := hwf a (List.mem_of_find?_eq_some h)
  apply List.find?_eq_some.mpr
  refine ⟨?_, as, bs, hsplit, ?_⟩
  · show ((TaskState.heapGet { s with heap := s.heap.set a t' } a).id == tid) = true
    rw [heapGet_set s a t' halen a, if_pos rfl, hid]
    exact hqa
  · intro x hx
    have hq := hprev x hx
    have hxa : x ≠ a := by
      intro he
      subst he
      rw [hqa] at hq
      simp at hq
    show (!((TaskState.heapGet { s with heap := s.heap.set a t' } x).id == tid)) = true
    rw [heapGet_set s a t' halen x, if_neg hxa]
    exact hq

theorem switch_status_set (s : TaskState) (hwf : s.wf) (tid : String)
    (st : TaskStatus) {a : Nat}
    (h : s.taskRefs.find? (fun b => (s.heapGet b).id == tid) = some a)
    (hst : (s.heapGet a).status ≠ st) :
    (s.switchTaskStatus tid st).1.taskList.find? (fun u => u.id == tid)
      = some { s.heapGet a with status := st } := by
  have halen : a < s.heap.length := hwf a (List.mem_of_find?_eq_some h)
  rw [switch_find_some_ne s tid st h hst, find?_taskList]
  show (s.taskRefs.find? (fun b =>
      (TaskState.heapGet { s with heap := s.heap.set a { s.heapGet a with status := st } } b).id == tid)).map
      (TaskState.heapGet { s with heap := s.heap.set a { s.heapGet a with status := st } }) = _
  rw [find_after_set s hwf tid { s.heapGet a with status := st } h rfl]
  show some (TaskState.heapGet { s with heap := s.heap.set a { s.heapGet a with status := st } } a) = _
  rw [heapGet_set s a _ halen a, if_pos rfl]

theorem switch_taskList_map_id (s : TaskState) (hwf : s.wf) (tid : String)
    (st : TaskStatus) :
    (s.switchTaskStatus tid st).1.taskList.map Task.id = s.taskList.map Task.id := by
  cases h : s.taskRefs.find? (fun b => (s.heapGet b).id == tid) with
  | none => rw [switch_find_none s tid st h]
  | some a =>
    by_cases hst : (s.heapGet a).status ≠ st
    · rw [switch_find_some_ne s tid st h hst]
      have halen : a < s.heap.length := hwf a (List.mem_of_find?_eq_some h)
      show ((s.taskRefs.map (s.setStatusAt a st).heapGet).map Task.id) = _
      unfold TaskState.taskList
      rw [List.map_map, List.map_map]
      refine List.map_congr_left fun b hb => ?_
      show Task.id ((s.setStatusAt a st).heapGet b) = Task.id (s.heapGet b)
      rw [heapGet_setStatusAt s a st halen b]
      by_cases hba : b = a
      · subst hba
        rw [if_pos rfl]
      · rw [if_neg hba]
    · rw [switch_find_some_eq s tid st h (not_not.mp hst)]

theorem addListener_taskList (s : TaskState) (l : Nat) :
    (s.addListener l).taskList = s.taskList := rfl

theorem runOps_ids (ops : List StoreOp) : ∀ (s : TaskState), s.wf →
    (TaskState.runOps s ops).taskList.map Task.id
      = s.taskList.map Task.id ++ (addTimes ops).map natToString := by
  induction ops with
  | nil =>
    intro s _
    simp [TaskState.runOps, addTimes]
  | cons op rest ih =>
    intro s hwf
    show (TaskState.runOps (s.applyOp op) rest).taskList.map Task.id = _
    rw [ih _ (wf_applyOp s hwf op)]
    cases op with
    | add now t d q =>
      show ((s.addTask now t d q).1.taskList.map Task.id) ++ _ = _
      rw [addTask_taskList s hwf now t d q, List.map_append]
      show (s.taskList.map Task.id ++ [natToString now]) ++ _ = _
      rw [List.append_assoc]
      rfl
    | transition tid st =>
      show ((s.switchTaskStatus tid st).1.taskList.map Task.id) ++ _ = _
      rw [switch_taskList_map_id s hwf tid st]
      rfl
    | subscribe l =>
      show ((s.addListener l).taskList.map Task.id) ++ _ = _
      rw [addListener_taskList]
      rfl

theorem mutateSnapshotTitle_eq (s : TaskState) {snap : List Nat} {i a : Nat}
    (h : snap[i]? = some a) (newTitle : String) :
    mutateSnapshotTitle s snap i newTitle
      = { s with heap := s.heap.set a { s.heapGet a with title := newTitle } } := by
  unfold mutateSnapshotTitle
  split
  · rename_i b heq
    rw [h] at heq
    injection heq with heq
    subst heq
    rfl
  · rename_i heq
    rw [h] at heq
    cases heq

/-! ## Claim theorems: the store -/

/-- C1: on any reachable store and any valid input (non-empty title,
description of length 5–500, quantity 1–10), `addTask` appends a new task
with status `Active` and the id freshly generated from the creation
timestamp to the end of the sequence, and every registered subscriber is
invoked with a snapshot that dereferences to a sequence exactly one longer
than before whose last element carries the given title, description and
quantity. -/
theorem addTask_spec (s : TaskState) (hr : s.Reachable) (now : Nat)
    (title description : String) (q : Int) (htitle : title ≠ "")
    (hdlo : 5 ≤ description.length) (hdhi : description.length ≤ 500)
    (hqlo : 1 ≤ q) (hqhi : q ≤ 10) :
    (s.addTask now title description (.int q)).1.taskList
        = s.taskList ++ [⟨natToString now, title, description, .int q, .Active⟩]
    ∧ (s.addTask now title description (.int q)).2
        = s.listeners.map (fun l => (l, (s.addTask now title description (.int q)).1.taskRefs))
    ∧ ∀ p ∈ (s.addTask now title description (.int q)).2,
        (p.2.map (s.addTask now title description (.int q)).1.heapGet).length
            = s.taskList.length + 1
        ∧ (p.2.map (s.addTask now title description (.int q)).1.heapGet).getLast?
            = some ⟨natToString now, title, description, .int q, .Active⟩ := by
  have hwf := (reachable_inv s hr).1
  have hlist := addTask_taskList s hwf now title description (.int q)
  refine ⟨hlist, rfl, ?_⟩
  intro p hp
  obtain ⟨l, _, hpe⟩ := List.mem_map.mp hp
  rw [← hpe]
  constructor
  · show ((s.addTask now title description (.int q)).1.taskList).length = _
    rw [hlist, List.length_append]
    rfl
  · show ((s.addTask now title description (.int q)).1.taskList).getLast? = _
    rw [hlist, List.getLast?_concat]

/-- C1 (witness): the specification instantiated on a store holding one
listener, at timestamp 100, with the valid input of end-to-end scenario A. -/
theorem addTask_spec_witness :
    ((initialState.addListener 7).addTask 100 "Build CLI" "A tool for developers" (.int 3)).1.taskList
      = (initialState.addListener 7).taskList
          ++ [⟨natToString 100, "Build CLI", "A tool for developers", .int 3, .Active⟩] :=
  (addTask_spec (initialState.addListener 7) ⟨[.subscribe 7], rfl⟩ 100 "Build CLI"
    "A tool for developers" 3 (by decide) (by decide) (by decide) (by decide)
    (by decide)).1

/-- C2: on any reachable store, `switchTaskStatus` with an unknown id leaves
the store unchanged and notifies nobody (and, being a total function, throws
nothing); with a known id whose task already has the requested status it is
likewise a silent no-op; otherwise it sets that task's status and notifies
every registered subscriber with a fresh snapshot; and a second call with the
same id and status is always a no-op, so two identical calls notify at most
once. -/
theorem switchTaskStatus_spec (s : TaskState) (hr : s.Reachable) (tid : String)
    (st : TaskStatus) :
    ((∀ u ∈ s.taskList, u.id ≠ tid) → s.switchTaskStatus tid st = (s, []))
    ∧ (∀ t, s.taskList.find? (fun u => u.id == tid) = some t → t.status = st →
        s.switchTaskStatus tid st = (s, []))
    ∧ (∀ t, s.taskList.find? (fun u => u.id == tid) = some t → t.status ≠ st →
        (s.switchTaskStatus tid st).2 = s.listeners.map (fun l => (l, s.taskRefs))
        ∧ (s.switchTaskStatus tid st).1.taskList.find? (fun u => u.id == tid)
            = some { t with status := st })
    ∧ (s.switchTaskStatus tid st).1.switchTaskStatus tid st
        = ((s.switchTaskStatus tid st).1, []) := by
  have hwf := (reachable_inv s hr).1
  refine ⟨?_, ?_, ?_, ?_⟩
  · intro habs
    apply switch_find_none
    rw [List.find?_eq_none]
    intro a ha
    have hmem : s.heapGet a ∈ s.taskList := List.mem_map_of_mem s.heapGet ha
    simpa using habs _ hmem
  · intro t hfind hst
    rw [find?_taskList] at hfind
    obtain ⟨a, ha, hat⟩ := Option.map_eq_some'.mp hfind
    exact switch_find_some_eq s tid st ha (by rw [hat]; exact hst)
  · intro t hfind hst
    rw [find?_taskList] at hfind
    obtain ⟨a, ha, hat⟩ := Option.map_eq_some'.mp hfind
    have hstA : (s.heapGet a).status ≠ st := by rw [hat]; exact hst
    constructor
    · rw [switch_find_some_ne s tid st ha hstA]
    · rw [switch_status_set s hwf tid st ha hstA, hat]
  · cases hfind : s.taskRefs.find? (fun b => (s.heapGet b).id == tid) with
    | none =>
      rw [switch_find_none s tid st hfind]
      exact switch_find_none s tid st hfind
    | some a =>
      by_cases hstA : (s.heapGet a).status ≠ st
      · rw [switch_find_some_ne s tid st hfind hstA]
        have halen : a < s.heap.length := hwf a (List.mem_of_find?_eq_some hfind)
        apply switch_find_some_eq (a := a)
        · exact find_after_set s hwf tid { s.heapGet a with status := st } hfind rfl
        · show (TaskState.heapGet { s with heap := s.heap.set a { s.heapGet a with status := st } } a).status = st
          rw [heapGet_set s a _ halen a, if_pos rfl]
      · rw [switch_find_some_eq s tid st hfind (not_not.mp hstA)]
        exact switch_find_some_eq s tid st hfind (not_not.mp hstA)

/-- C2 (witness): the specification applied to the freshly-created store. -/
theorem switchTaskStatus_spec_witness :
    (initialState.switchTaskStatus "x" .Active).1.switchTaskStatus "x" .Active
      = ((initialState.switchTaskStatus "x" .Active).1, []) :=
  (switchTaskStatus_spec initialState ⟨[], rfl⟩ "x" .Active).2.2.2

/-- C5: on any reachable store, a successful `switchTaskStatus` rewrites the
matched task's status only — the task keeps its id, title, description and
quantity, every task before and after it in the sequence is untouched, and
the insertion order of the sequence is preserved. -/
theorem switch_frame (s : TaskState) (hr : s.Reachable) (tid : String)
    (st : TaskStatus) (t : Task)
    (hfind : s.taskList.find? (fun u => u.id == tid) = some t)
    (hst : t.status ≠ st) :
    ∃ l₁ l₂, s.taskList = l₁ ++ t :: l₂
      ∧ (∀ u ∈ l₁, u.id ≠ tid)
      ∧ (s.switchTaskStatus tid st).1.taskList = l₁ ++ { t with status := st } :: l₂ := by
  obtain ⟨hwf, hnd⟩ := reachable_inv s hr
  rw [find?_taskList] at hfind
  obtain ⟨a, ha, hat⟩ := Option.map_eq_some'.mp hfind
  have hstA : (s.heapGet a).status ≠ st := by rw [hat]; exact hst
  have halen : a < s.heap.length := hwf a (List.mem_of_find?_eq_some ha)
  obtain ⟨hqa, as, bs, hsplit, hprev⟩ := List.find?_eq_some.mp ha
  have hndsplit := hnd
  rw [hsplit, List.nodup_append] at hndsplit
  obtain ⟨hndas, hndcons, hdisj⟩ := hndsplit
  have hanotas : a ∉ as := fun hmem => hdisj hmem (List.mem_cons_self a bs)
  have hanotbs : a ∉ bs := (List.nodup_cons.mp hndcons).1
  refine ⟨as.map s.heapGet, bs.map s.heapGet, ?_, ?_, ?_⟩
  · unfold TaskState.taskList
    rw [hsplit, List.map_append, List.map_cons, hat]
  · intro u hu
    obtain ⟨x, hx, rfl⟩ := List.mem_map.mp hu
    have hq := hprev x hx
    intro he
    rw [he] at hq
    simp at hq
  · rw [switch_find_some_ne s tid st ha hstA]
    show s.taskRefs.map (TaskState.heapGet
        { s with heap := s.heap.set a { s.heapGet a with status := st } }) = _
    rw [List.map_congr_left (fun x (_ : x ∈ s.taskRefs) =>
      heapGet_set s a { s.heapGet a with status := st } halen x)]
    rw [hsplit, List.map_append, List.map_cons]
    congr 1
    · refine List.map_congr_left fun x hx => ?_
      rw [if_neg (fun (he : x = a) => hanotas (he ▸ hx))]
    · congr 1
      · rw [if_pos rfl, hat]
      · refine List.map_congr_left fun x hx => ?_
        rw [if_neg (fun (he : x = a) => hanotbs (he ▸ hx))]

/-- C5 (witness): the frame property on a store holding a single task added
at timestamp 100, flipped to `Completed`. -/
theorem switch_frame_witness :
    ∃ l₁ l₂, (TaskState.runOps initialState [.add 100 "T" "ddddd" (.int 3)]).taskList
        = l₁ ++ (⟨"100", "T", "ddddd", .int 3, .Active⟩ : Task) :: l₂
      ∧ (∀ u ∈ l₁, u.id ≠ "100")
      ∧ ((TaskState.runOps initialState
            [.add 100 "T" "ddddd" (.int 3)]).switchTaskStatus "100" .Completed).1.taskList
        = l₁ ++ (⟨"100", "T", "ddddd", .int 3, .Completed⟩ : Task) :: l₂ :=
  switch_frame (TaskState.runOps initialState [.add 100 "T" "ddddd" (.int 3)])
    ⟨[.add 100 "T" "ddddd" (.int 3)], rfl⟩ "100" .Completed
    ⟨"100", "T", "ddddd", .int 3, .Active⟩ (by decide) (by decide)

/-- C4 (counterexample): ids are derived from `Date.now()`, so two adds
falling in the same millisecond produce two tasks with the same id — the
unconditional uniqueness claim fails. -/
theorem same_timestamp_duplicate_ids :
    ¬ ((TaskState.runOps initialState
        [.add 5 "first" "aaaaa" (.int 1),
         .add 5 "second" "bbbbb" (.int 2)]).taskList.map Task.id).Nodup := by
  intro h
  have heq : (TaskState.runOps initialState
      [.add 5 "first" "aaaaa" (.int 1),
       .add 5 "second" "bbbbb" (.int 2)]).taskList.map Task.id
      = [natToString 5, natToString 5] := rfl
  rw [heq] at h
  exact (List.nodup_cons.mp h).1 (List.mem_singleton_self _)

/-- C4 (amended): under any operation sequence whose add operations see
pairwise-distinct clock readings, all ids in the store are pairwise
distinct — decimal timestamp strings of distinct timestamps are distinct. -/
theorem ids_nodup_of_distinct_timestamps (ops : List StoreOp)
    (h : (addTimes ops).Nodup) :
    ((TaskState.runOps initialState ops).taskList.map Task.id).Nodup := by
  rw [runOps_ids ops initialState (by intro a ha; simp [initialState] at ha)]
  show (List.map Task.id (TaskState.taskList initialState)
      ++ (addTimes ops).map natToString).Nodup
  rw [show TaskState.taskList initialState = [] from rfl]
  simpa using h.map natToString_injective

/-- C4 (amended, witness): two adds at distinct timestamps yield distinct
ids. -/
theorem ids_nodup_witness :
    ((TaskState.runOps initialState
        [.add 5 "first" "aaaaa" (.int 1),
         .add 7 "second" "bbbbb" (.int 2)]).taskList.map Task.id).Nodup :=
  ids_nodup_of_distinct_timestamps
    [.add 5 "first" "aaaaa" (.int 1), .add 7 "second" "bbbbb" (.int 2)] (by decide)

/-- C3 (counterexample): with one listener registered, add a task and take
the snapshot actually delivered to the listener; assigning to
`snapshot[0].title` changes the store's own task sequence — the snapshot is
only a shallow copy, so it does not insulate the store from mutations of the
items it contains. -/
theorem snapshot_mutation_counterexample :
    ((mutateSnapshotTitle
        ((initialState.addListener 0).addTask 100 "Title" "Valid description" (.int 3)).1
        ((((initialState.addListener 0).addTask 100 "Title" "Valid description"
            (.int 3)).2.headD (0, [])).2)
        0 "HACKED").taskList.map Task.title = ["HACKED"])
    ∧ ((((initialState.addListener 0).addTask 100 "Title" "Valid description"
        (.int 3)).1.taskList.map Task.title) = ["Title"]) :=
  ⟨rfl, rfl⟩

/-- C3 (amended): the notified snapshot is a fresh array, but it shares its
task objects with the store: on any reachable store, overwriting the title of
any item reached through the snapshot with a different string changes the
store's task sequence. -/
theorem snapshot_is_shallow (s : TaskState) (hr : s.Reachable) (i : Nat)
    (t : Task) (hi : s.taskList[i]? = some t) (newTitle : String)
    (hne : newTitle ≠ t.title) :
    (mutateSnapshotTitle s s.taskRefs i newTitle).taskList ≠ s.taskList := by
  have hwf := (reachable_inv s hr).1
  have hi' : (s.taskRefs.map s.heapGet)[i]? = some t := hi
  rw [List.getElem?_map] at hi'
  obtain ⟨a, hai, hat⟩ := Option.map_eq_some'.mp hi'
  have halen : a < s.heap.length := hwf a (List.getElem?_mem hai)
  intro heq
  rw [mutateSnapshotTitle_eq s hai newTitle] at heq
  have h2 := congrArg (fun l => l[i]?) heq
  simp only at h2
  have hL : (TaskState.taskList
      { s with heap := s.heap.set a { s.heapGet a with title := newTitle } })[i]?
      = some { s.heapGet a with title := newTitle } := by
    unfold TaskState.taskList
    rw [List.getElem?_map]
    show (Option.map (TaskState.heapGet
        { s with heap := s.heap.set a { s.heapGet a with title := newTitle } })
        s.taskRefs[i]?) = _
    rw [hai]
    show some (TaskState.heapGet
        { s with heap := s.heap.set a { s.heapGet a with title := newTitle } } a) = _
    rw [heapGet_set s a _ halen a, if_pos rfl]
  rw [hL, hi] at h2
  injection h2 with h2
  exact hne (congrArg Task.title h2)

/-- C3 (amended, witness): mutating the title of the only task through the
snapshot changes the store. -/
theorem snapshot_is_shallow_witness :
    (mutateSnapshotTitle
        (TaskState.runOps initialState [.add 100 "Title" "Valid description" (.int 3)])
        (TaskState.runOps initialState
          [.add 100 "Title" "Valid description" (.int 3)]).taskRefs
        0 "HACKED").taskList
      ≠ (TaskState.runOps initialState
          [.add 100 "Title" "Valid description" (.int 3)]).taskList :=
  snapshot_is_shallow
    (TaskState.runOps initialState [.add 100 "Title" "Valid description" (.int 3)])
    ⟨[.add 100 "Title" "Valid description" (.int 3)], rfl⟩ 0
    ⟨"100", "Title", "Valid description", .int 3, .Active⟩ (by decide) "HACKED"
    (by decide)

/-- C8: the submit handler validates the three fields exactly as the source
builds the descriptors (title required; description required with length
5–500; quantity required with range 1–10 after coercion); precisely when all
three pass, the store's `addTask` runs with the coerced values and the fields
are cleared; on any failure the blocking alert fires and store and fields are
left untouched. -/
theorem submitHandler_spec (s : TaskState) (now : Nat) (f : FormFields) :
    submitHandler s now f =
      if validation (titleValid f) && validation (discriptionValid f)
          && validation (taskValid f) then
        ⟨(s.addTask now f.title f.description (jsToNumber f.days)).1, clearForm,
         (s.addTask now f.title f.description (jsToNumber f.days)).2, false⟩
      else ⟨s, f, [], true⟩ := by
  cases h1 : validation (titleValid f) <;> cases h2 : validation (discriptionValid f) <;>
    cases h3 : validation (taskValid f) <;>
      simp [submitHandler, getUserInput, h1, h2, h3]

end App
